import Mathlib

/-!
A verification development for the AI Scrum Master frontend
(`frontend/src/App.js`).  The React component handlers are embedded as pure
Lean functions: each submit handler becomes a function from the component's
state, its form input and the outcome of its one HTTP call to the new state
and the list of observable side effects it performs, in order.  The browser
built-ins the handlers rely on (`JSON.stringify(data, null, 2)`,
`JSON.parse`, `String.prototype.trim`, `String.prototype.split`,
`setInterval`/`clearInterval`) are embedded alongside, restricted to the
values the app exchanges: JSON numbers are modelled as integers.
-/

namespace ScrumMaster

/-! ## JavaScript values

`JValue` models the JSON-compatible JavaScript values the app sends and
receives (`response.data`, the `data` prop of `ExportButton`, ...).  Numbers
are modelled as integers. -/

inductive JValue where
  | null
  | bool (b : Bool)
  | num (n : Int)
  | str (s : String)
  | arr (elems : List JValue)
  | obj (fields : List (String × JValue))

/-- JavaScript truthiness of a value (`if (data.id)` style tests). -/
def JValue.truthy : JValue → Bool
  | .null => false
  | .bool b => b
  | .num n => n != 0
  | .str s => s != ""
  | .arr _ => true
  | .obj _ => true

/-- Property access `v[key]`: the first binding of `key` when `v` is an
object, otherwise JavaScript's `undefined`, modelled as `none`. -/
def JValue.getProp (v : JValue) (key : String) : Option JValue :=
  match v with
  | .obj fields => fields.lookup key
  | _ => none

/-! ## `JSON.stringify(data, null, 2)`

The export button serialises with a two-space indent.  The printer follows
the ECMAScript `SerializeJSONProperty` algorithm on `JValue`: scalars print
bare, strings print quoted with the JSON escapes, and a non-empty array or
object opens on its own line with every child indented one level deeper. -/

/-- The indentation prefix at nesting level `lvl` (two spaces per level). -/
def jsonIndent (lvl : Nat) : List Char := List.replicate (2 * lvl) ' '

/-- The lowercase hexadecimal digit for `n < 16`. -/
def lowerHexDigit (n : Nat) : Char :=
  if n < 10 then Char.ofNat ('0'.toNat + n) else Char.ofNat ('a'.toNat + n - 10)

/-- How `JSON.stringify` emits one character of a string: the two-character
escapes for quote, backslash, backspace, form feed, newline, carriage return
and tab, a `\u00xx` escape for the remaining control characters, and the
character itself otherwise. -/
def jsonEscapeChar (c : Char) : List Char :=
  if c = '"' then ['\\', '"']
  else if c = '\\' then ['\\', '\\']
  else if c = '\x08' then ['\\', 'b']
  else if c = '\x0c' then ['\\', 'f']
  else if c = '\n' then ['\\', 'n']
  else if c = '\x0d' then ['\\', 'r']
  else if c = '\t' then ['\\', 't']
  else if c.toNat < 32 then
    ['\\', 'u', '0', '0', lowerHexDigit (c.toNat / 16), lowerHexDigit (c.toNat % 16)]
  else [c]

/-- A string as `JSON.stringify` emits it: quoted and escaped. -/
def jsonQuote (s : String) : List Char :=
  '"' :: (s.data.flatMap jsonEscapeChar ++ ['"'])

/-- The decimal digits of `n`, most significant first. -/
def decimalDigits (n : Nat) : List Char :=
  if _h : n < 10 then [Nat.digitChar n]
  else decimalDigits (n / 10) ++ [Nat.digitChar (n % 10)]
  decreasing_by exact Nat.div_lt_self (by omega) (by omega)

/-- An integer as JavaScript prints it: a minus sign when negative, then
decimal digits. -/
def intDecimal (i : Int) : List Char :=
  if i < 0 then '-' :: decimalDigits i.natAbs else decimalDigits i.natAbs

mutual

/-- `JSON.stringify(·, null, 2)` at nesting level `lvl`, as a character
list.  `lvl` is the level of the value itself: its children indent to
`lvl + 1` and a closing bracket indents to `lvl`. -/
def stringifyAt : JValue → Nat → List Char
  | .null, _ => ['n', 'u', 'l', 'l']
  | .bool true, _ => ['t', 'r', 'u', 'e']
  | .bool false, _ => ['f', 'a', 'l', 's', 'e']
  | .num n, _ => intDecimal n
  | .str s, _ => jsonQuote s
  | .arr [], _ => ['[', ']']
  | .arr (e :: es), lvl =>
      '[' :: (stringifyElems (e :: es) lvl ++ '\n' :: (jsonIndent lvl ++ [']']))
  | .obj [], _ => ['\x7b', '\x7d']
  | .obj (f :: fs), lvl =>
      '\x7b' :: (stringifyFields (f :: fs) lvl ++ '\n' :: (jsonIndent lvl ++ ['\x7d']))

/-- The elements of a non-empty array: each on its own line, indented one
level past the array, separated by commas. -/
def stringifyElems : List JValue → Nat → List Char
  | [], _ => []
  | [e], lvl => '\n' :: (jsonIndent (lvl + 1) ++ stringifyAt e (lvl + 1))
  | e :: e2 :: es, lvl =>
      '\n' :: (jsonIndent (lvl + 1) ++
        (stringifyAt e (lvl + 1) ++ ',' :: stringifyElems (e2 :: es) lvl))

/-- The members of a non-empty object: each `"key": value` on its own line,
indented one level past the object, separated by commas. -/
def stringifyFields : List (String × JValue) → Nat → List Char
  | [], _ => []
  | [(k, v)], lvl =>
      '\n' :: (jsonIndent (lvl + 1) ++
        (jsonQuote k ++ ':' :: ' ' :: stringifyAt v (lvl + 1)))
  | (k, v) :: f :: fs, lvl =>
      '\n' :: (jsonIndent (lvl + 1) ++
        (jsonQuote k ++ ':' :: ' ' :: (stringifyAt v (lvl + 1) ++ ',' :: stringifyFields (f :: fs) lvl)))

end

/-- `JSON.stringify(data, null, 2)`, the serialisation the export button
writes into the downloaded file. -/
def stringify (data : JValue) : String := String.mk (stringifyAt data 0)

/-! ## `JSON.parse`

A recursive-descent reader of the grammar the printer emits (JSON with
integer numerals), total thanks to a fuel argument, and insensitive to the
whitespace the pretty-printer inserts. -/

/-- The whitespace `JSON.parse` skips between tokens. -/
def jsonWs (c : Char) : Bool :=
  c == ' ' || c == '\t' || c == '\n' || c == '\x0d'

/-- Drop leading JSON whitespace. -/
def chopWs : List Char → List Char
  | [] => []
  | c :: cs => if jsonWs c then chopWs cs else c :: cs

/-- The value of one hexadecimal digit character. -/
def hexDigitValue (c : Char) : Option Nat :=
  if '0' ≤ c ∧ c ≤ '9' then some (c.toNat - '0'.toNat)
  else if 'a' ≤ c ∧ c ≤ 'f' then some (c.toNat - 'a'.toNat + 10)
  else if 'A' ≤ c ∧ c ≤ 'F' then some (c.toNat - 'A'.toNat + 10)
  else none

/-- The character a single-letter JSON escape denotes. -/
def jsonUnescape : Char → Option Char
  | '"' => some '"'
  | '\\' => some '\\'
  | '/' => some '/'
  | 'b' => some '\x08'
  | 'f' => some '\x0c'
  | 'n' => some '\n'
  | 'r' => some '\x0d'
  | 't' => some '\t'
  | _ => none

/-- Read a string body up to its closing quote, undoing the escapes;
returns the characters read and the input after the quote. -/
def readStringBody : List Char → Option (List Char × List Char)
  | [] => none
  | '"' :: rest => some ([], rest)
  | '\\' :: 'u' :: h1 :: h2 :: h3 :: h4 :: rest => do
      let v1 ← hexDigitValue h1
      let v2 ← hexDigitValue h2
      let v3 ← hexDigitValue h3
      let v4 ← hexDigitValue h4
      let (s, r) ← readStringBody rest
      some (Char.ofNat (((v1 * 16 + v2) * 16 + v3) * 16 + v4) :: s, r)
  | '\\' :: e :: rest => do
      let c ← jsonUnescape e
      let (s, r) ← readStringBody rest
      some (c :: s, r)
  | c :: rest => do
      let (s, r) ← readStringBody rest
      some (c :: s, r)

/-- Whether `c` is a decimal digit. -/
def decDigit (c : Char) : Bool := '0' ≤ c && c ≤ '9'

/-- The number a list of decimal digit characters denotes. -/
def digitsValue (ds : List Char) : Nat :=
  ds.foldl (fun acc c => 10 * acc + (c.toNat - '0'.toNat)) 0

/-- Read a run of decimal digits as a natural number. -/
def readNat (cs : List Char) : Option (Nat × List Char) :=
  if (cs.takeWhile decDigit).isEmpty then none
  else some (digitsValue (cs.takeWhile decDigit), cs.dropWhile decDigit)

/-- Read an optionally signed integer numeral. -/
def readInt (cs : List Char) : Option (Int × List Char) :=
  if cs.head? = some '-' then (readNat cs.tail).map fun p => (-(p.1 : Int), p.2)
  else (readNat cs).map fun p => ((p.1 : Int), p.2)

mutual

/-- Read one JSON value, skipping leading whitespace. -/
def readValue : Nat → List Char → Option (JValue × List Char)
  | 0, _ => none
  | fuel + 1, cs =>
      match chopWs cs with
      | 'n' :: 'u' :: 'l' :: 'l' :: rest => some (.null, rest)
      | 't' :: 'r' :: 'u' :: 'e' :: rest => some (.bool true, rest)
      | 'f' :: 'a' :: 'l' :: 's' :: 'e' :: rest => some (.bool false, rest)
      | '"' :: rest =>
          (readStringBody rest).map fun p => (.str (String.mk p.1), p.2)
      | '[' :: rest =>
          (match chopWs rest with
           | [] => none
           | c :: r2 =>
               if c = ']' then some (.arr [], r2)
               else (readElems fuel (c :: r2)).map fun p => (.arr p.1, p.2))
      | '\x7b' :: rest =>
          (match chopWs rest with
           | [] => none
           | c :: r2 =>
               if c = '\x7d' then some (.obj [], r2)
               else (readMembers fuel (c :: r2)).map fun p => (.obj p.1, p.2))
      | c :: rest =>
          if c = '-' ∨ decDigit c then
            (readInt (c :: rest)).map fun p => (.num p.1, p.2)
          else none
      | [] => none

/-- Read the elements of a non-empty array, consuming the closing bracket. -/
def readElems : Nat → List Char → Option (List JValue × List Char)
  | 0, _ => none
  | fuel + 1, cs =>
      match readValue fuel cs with
      | none => none
      | some (v, r) =>
          match chopWs r with
          | ',' :: r2 => (readElems fuel r2).map fun p => (v :: p.1, p.2)
          | ']' :: r2 => some ([v], r2)
          | _ => none

/-- Read the members of a non-empty object, consuming the closing brace. -/
def readMembers : Nat → List Char → Option (List (String × JValue) × List Char)
  | 0, _ => none
  | fuel + 1, cs =>
      match chopWs cs with
      | '"' :: r =>
          match readStringBody r with
          | none => none
          | some (k, r1) =>
              match chopWs r1 with
              | ':' :: r2 =>
                  match readValue fuel r2 with
                  | none => none
                  | some (v, r3) =>
                      match chopWs r3 with
                      | ',' :: r4 =>
                          (readMembers fuel r4).map fun p =>
                            ((String.mk k, v) :: p.1, p.2)
                      | '\x7d' :: r4 => some ([(String.mk k, v)], r4)
                      | _ => none
              | _ => none
      | _ => none

end

/-- `JSON.parse`: the whole input must be one value plus trailing
whitespace. -/
def jsonParse (s : String) : Option JValue :=
  match readValue (s.data.length + 1) s.data with
  | some (v, rest) => if chopWs rest = [] then some v else none
  | none => none

/-! ## Shared module-controller state

Every module owns one `output` (its `AnalysisResult`, `useState(null)`) and
one boolean `loading` flag.  A submit handler is embedded as a pure function
from the state, the form input and the outcome of its single HTTP call to
the new state and the ordered list of side effects it performs. -/

/-- JavaScript `a || b` where `a` is a possibly absent string: the default
replaces `undefined` and the empty string (both falsy). -/
def jsOrElse (s : Option String) (dflt : String) : String :=
  match s with
  | some v => if v = "" then dflt else v
  | none => dflt

/-- `String.prototype.split` at a one-character separator, on the character
list: splitting the empty string gives one empty piece, like JavaScript. -/
def splitChars (sep : Char) : List Char → List (List Char)
  | [] => [[]]
  | c :: rest =>
      match splitChars sep rest with
      | [] => [[c]]
      | g :: gs => if c = sep then [] :: g :: gs else (c :: g) :: gs

/-- `s.split(sep)` for a one-character separator. -/
def jsSplit (sep : Char) (s : String) : List String :=
  (splitChars sep s.data).map String.mk

/-- The `output`/`loading` pair every module keeps in component state. -/
structure ModuleState where
  output : Option JValue := none
  loading : Bool := false

/-- The observable side effects a submit handler performs, in order. -/
inductive UiEvent where
  | setLoading (value : Bool)
  | post (path : String)
  | setOutput (body : JValue)
  | logError
  | alert (message : String)

/-- The outcome of an `axios` call: the parsed `response.data`, or a thrown
error (axios throws on network failure and on any non-2xx status alike). -/
inductive AxiosOutcome where
  | ok (data : JValue)
  | err

/-- The outcome of a `fetch` call: `response.ok` with a parsed JSON body, a
non-ok response carrying an optional `detail` field, or a thrown error. -/
inductive FetchOutcome where
  | ok (result : JValue)
  | badStatus (detail : Option String)
  | failed

namespace StandupModule

/-- The member roster the standup module hard-codes. -/
structure TeamMember where
  id : String
  name : String
  role : String
  avatar : String

def teamMembers : List TeamMember :=
  [⟨"1", "Sarah Johnson", "Senior Developer", "SJ"⟩,
   ⟨"2", "Alex Rivera", "Frontend Developer", "AR"⟩,
   ⟨"3", "Mike Chen", "Backend Developer", "MC"⟩,
   ⟨"4", "Emily Davis", "QA Engineer", "ED"⟩]

/-- The standup form's `input` state. -/
structure StandupInput where
  team_member_id : String
  yesterday : String
  today : String
  blockers : String
  mood : String
  confidence_level : Nat

/-- `StandupModule.handleSubmit`: alerts and returns when no team member is
selected (the only guard in the handler); otherwise sets `loading`, posts
to `/api/standup`, stores `response.data` on success, logs on error, and
clears `loading` in the `finally` block. -/
def handleSubmit (state : ModuleState) (input : StandupInput)
    (outcome : AxiosOutcome) : ModuleState × List UiEvent :=
  if input.team_member_id = "" then
    (state, [.alert "Please select a team member"])
  else
    match outcome with
    | .ok data =>
        ({ state with loading := false, output := some data },
         [.setLoading true, .post "/api/standup", .setOutput data, .setLoading false])
    | .err =>
        ({ state with loading := false },
         [.setLoading true, .post "/api/standup", .logError, .setLoading false])

/-- `StandupModule.loadExample`: overwrites the whole `input` object with a
fixed example (the prior input is not consulted). -/
def loadExample (_input : StandupInput) : StandupInput :=
  { team_member_id := jsOrElse ((teamMembers.head?).map TeamMember.id) "1",
    yesterday := "Yesterday I completed the user authentication module implementation and resolved three critical bugs in the payment processing system. I also conducted code reviews for two pull requests and mentored a junior developer on React best practices. Additionally, I updated the API documentation for the authentication endpoints.",
    today := "Today I'm focusing on integrating the payment gateway with Stripe API, implementing the user dashboard with real-time analytics, and attending the architecture review meeting at 2 PM. I'll also start working on the mobile responsiveness improvements for the checkout flow and plan to finish writing unit tests for the auth module.",
    blockers := "I'm currently blocked waiting for the staging environment credentials from the DevOps team, which is preventing me from testing the payment integration. Also need design approval for the new dashboard layout from the UX team before I can proceed with the frontend implementation.",
    mood := "positive",
    confidence_level := 7 }

end StandupModule

namespace RetroModule

/-- The retrospective form's `input` state. -/
structure RetroInput where
  sprint_id : String
  went_well : String
  went_poorly : String
  improvements : String
  team_mood : String
  velocity_achieved : Nat
  goals_met : Nat

/-- `RetroModule.handleSubmit`: performs no validation of its own — it sets
`loading` and posts to `/api/retrospective` for every input. -/
def handleSubmit (state : ModuleState) (_input : RetroInput)
    (outcome : AxiosOutcome) : ModuleState × List UiEvent :=
  match outcome with
  | .ok data =>
      ({ state with loading := false, output := some data },
       [.setLoading true, .post "/api/retrospective", .setOutput data, .setLoading false])
  | .err =>
      ({ state with loading := false },
       [.setLoading true, .post "/api/retrospective", .logError, .setLoading false])

/-- `RetroModule.loadExample`: overwrites the whole `input` object with a
fixed example. -/
def loadExample (_input : RetroInput) : RetroInput :=
  { sprint_id := "SPRINT-24",
    went_well := "Excellent team collaboration on the payment integration feature, with all developers contributing to code reviews and knowledge sharing. The new automated testing pipeline caught 12 bugs before production, significantly improving our code quality. Daily standups were efficient and informative, keeping everyone aligned on progress and blockers. The product owner provided clear and timely feedback on user stories, reducing back-and-forth and rework.",
    went_poorly := "Testing environment was unstable for 3 days due to infrastructure issues, causing delays in QA validation and blocking several user stories. Requirements for the admin dashboard were unclear initially, leading to rework and scope creep. Too many ad-hoc meetings interrupted focused development time, reducing individual productivity. The code review process became a bottleneck with only senior developers able to approve critical changes.",
    improvements := "Establish dedicated focus time blocks (9-11 AM) with no meetings to improve deep work productivity. Implement a more robust testing environment with better monitoring and automatic failover. Create a more structured requirements gathering process with stakeholder sign-off before development begins. Distribute code review responsibilities among more team members to reduce bottlenecks and improve knowledge sharing.",
    team_mood := "positive",
    velocity_achieved := 28,
    goals_met := 85 }

end RetroModule

namespace BlockersModule

/-- The blocker-detection form's `input` state. -/
structure BlockersInput where
  days_threshold : Nat
  include_external_dependencies : Bool
  analyze_code_reviews : Bool

/-- `BlockersModule.handleSubmit`: no validation — sets `loading` and posts
to `/api/blockers` for every input. -/
def handleSubmit (state : ModuleState) (_input : BlockersInput)
    (outcome : AxiosOutcome) : ModuleState × List UiEvent :=
  match outcome with
  | .ok data =>
      ({ state with loading := false, output := some data },
       [.setLoading true, .post "/api/blockers", .setOutput data, .setLoading false])
  | .err =>
      ({ state with loading := false },
       [.setLoading true, .post "/api/blockers", .logError, .setLoading false])

end BlockersModule

/-! ## Smart ticket generator -/

/-- The code points `String.prototype.trim` strips (ECMAScript WhiteSpace
and LineTerminator). -/
def jsWhitespaceCodes : List Nat :=
  [9, 10, 11, 12, 13, 32, 160, 0x1680, 0x2000, 0x2001, 0x2002, 0x2003, 0x2004,
   0x2005, 0x2006, 0x2007, 0x2008, 0x2009, 0x200a, 0x2028, 0x2029, 0x202f,
   0x205f, 0x3000, 0xfeff]

def jsWhitespaceChar (c : Char) : Bool := jsWhitespaceCodes.contains c.toNat

/-- `String.prototype.trim`: strip leading and trailing whitespace. -/
def jsTrim (s : String) : String :=
  String.mk (((s.data.dropWhile jsWhitespaceChar).reverse.dropWhile jsWhitespaceChar).reverse)

namespace SmartTicketGenerator

/-- The ticket form's `formData` state. -/
structure TicketInput where
  title : String
  description : String
  project_context : String
  assignee_id : String
  priority : String
  labels : List String

/-- `SmartTicketGenerator.handleLabelsChange`: the labels list the handler
stores for a given text-field value — split on commas, trim each piece,
drop falsy (empty) pieces. -/
def handleLabelsChange (value : String) : List String :=
  ((jsSplit ',' value).map jsTrim).filter (fun label => label != "")

/-- The form state after an edit of the Labels field. -/
def applyLabelsChange (formData : TicketInput) (value : String) : TicketInput :=
  { formData with labels := handleLabelsChange value }

/-- `SmartTicketGenerator.handleSubmit`: alerts and returns when the
description is empty; otherwise sets `loading`, posts to `/ticket`, stores
the parsed body when `response.ok`, alerts with the server's `detail` on a
non-ok status, alerts on a thrown error, and clears `loading` in the
`finally` block. -/
def handleSubmit (state : ModuleState) (formData : TicketInput)
    (outcome : FetchOutcome) : ModuleState × List UiEvent :=
  if formData.description = "" then
    (state, [.alert "Please provide a ticket description"])
  else
    match outcome with
    | .ok result =>
        ({ state with loading := false, output := some result },
         [.setLoading true, .post "/ticket", .setOutput result, .setLoading false])
    | .badStatus detail =>
        ({ state with loading := false },
         [.setLoading true, .post "/ticket",
          .alert ("Error: " ++ jsOrElse detail "Failed to generate ticket"),
          .setLoading false])
    | .failed =>
        ({ state with loading := false },
         [.setLoading true, .post "/ticket", .logError,
          .alert "Failed to generate ticket", .setLoading false])

/-- `SmartTicketGenerator.loadExample`: overwrites the whole `formData`
object with a fixed example. -/
def loadExample (_formData : TicketInput) : TicketInput :=
  { title := "Implement User Dashboard Analytics",
    description := "Create a comprehensive analytics dashboard for users to track their productivity metrics, view historical data, and generate custom reports. The dashboard should include charts, graphs, and exportable reports.",
    project_context := "Part of the Q2 user engagement initiative to increase platform adoption and user retention through better insights.",
    assignee_id := "",
    priority := "High",
    labels := ["frontend", "analytics", "user-experience"] }

end SmartTicketGenerator

/-! ## Export button -/

/-- The side effects one export click performs. -/
inductive ExportEvent where
  | exportRequest (module_ : String) (id : JValue) (format : String)
  | download (filename : String) (content : String) (mime : String)
  | logError

/-- A successful `GET /api/export/...` response body. -/
structure ExportResponse where
  content : String
  content_type : Option String

/-- The outcome of the export endpoint call. -/
inductive ExportOutcome where
  | ok (response : ExportResponse)
  | err

namespace ExportButton

/-- `ExportButton.handleExport`: when `data.id` is truthy and the format is
not `json`, fetch the server-rendered artifact for
`filename.split('-')[0]` and download it with extension `.md` for markdown
and the format name otherwise; in every other case — including a non-json
format on a result without an id — serialize `data` with
`JSON.stringify(data, null, 2)` and download it as `{filename}.json`.  Any
error in the server path is caught and logged. -/
def handleExport (data : JValue) (filename : String) (format : String)
    (outcome : ExportOutcome) : List ExportEvent :=
  if ((data.getProp "id").map JValue.truthy).getD false && format != "json" then
    match outcome with
    | .ok response =>
        [.exportRequest ((jsSplit '-' filename).headD "") ((data.getProp "id").getD .null) format,
         .download (filename ++ "." ++ (if format == "markdown" then "md" else format))
           response.content (jsOrElse response.content_type "text/plain")]
    | .err =>
        [.exportRequest ((jsSplit '-' filename).headD "") ((data.getProp "id").getD .null) format,
         .logError]
  else
    [.download (filename ++ ".json") (stringify data) "application/json"]

end ExportButton

/-! ## Dashboard polling

`Dashboard`'s only effect runs on mount: it calls `fetchDashboardData()`
once immediately, starts `setInterval(fetchDashboardData, 30000)`, and its
cleanup — run unconditionally on unmount — is `clearInterval(interval)`.
`IntervalEffect` captures these three facts and `firesAt` gives the
standard `setInterval` timing semantics they induce. -/

/-- A mount effect that may call now, repeat every `delayMs`, and clear its
timer on cleanup. -/
structure IntervalEffect where
  immediateCall : Bool
  delayMs : Nat
  clearedOnCleanup : Bool

/-- When a fetch fires, `t` milliseconds after mount, for a component
unmounted at `unmountAt`: the immediate call at `t = 0`, and the interval
ticks at positive multiples of the delay — forever if the cleanup does not
clear the timer, and only while mounted if it does. -/
def IntervalEffect.firesAt (e : IntervalEffect) (unmountAt t : Nat) : Prop :=
  (e.immediateCall = true ∧ t = 0 ∧ 0 < unmountAt)
  ∨ (0 < t ∧ t % e.delayMs = 0 ∧ (t < unmountAt ∨ e.clearedOnCleanup = false))

instance (e : IntervalEffect) (u t : Nat) : Decidable (e.firesAt u t) := by
  unfold IntervalEffect.firesAt
  exact inferInstance

namespace Dashboard

/-- The dashboard's mount effect as written: immediate fetch, a 30000 ms
interval, and an unconditional `clearInterval` cleanup. -/
def pollEffect : IntervalEffect :=
  { immediateCall := true, delayMs := 30000, clearedOnCleanup := true }

/-- Each fetch hits both dashboard endpoints at once. -/
def fetchPaths : List String := ["/api/metrics", "/api/insights?limit=5"]

end Dashboard

/-! ## View router -/

/-- What `App.renderActiveModule` can mount: one of the five backed
modules, or a static under-construction notice. -/
inductive RenderedComponent where
  | dashboard
  | standupModule
  | smartTicketGenerator
  | blockersModule
  | retroModule
  | constructionNotice (text : String)
deriving DecidableEq

/-- Whether a component is one of the static placeholders. -/
def RenderedComponent.isNotice : RenderedComponent → Bool
  | .constructionNotice _ => true
  | _ => false

namespace Sidebar

/-- The sidebar's closed list of tab identifiers, in menu order. -/
def menuItemIds : List String :=
  ["dashboard", "standup", "sprint", "ticket", "retro", "blockers", "insights",
   "integrations"]

end Sidebar

namespace App

/-- `App.renderActiveModule`: the `switch (activeTab)` dispatch, with the
`default` arm falling back to the dashboard. -/
def renderActiveModule (activeTab : String) : RenderedComponent :=
  match activeTab with
  | "standup" => .standupModule
  | "ticket" => .smartTicketGenerator
  | "sprint" => .constructionNotice "⚡ Advanced Sprint Planner - Implementation in Progress"
  | "blockers" => .blockersModule
  | "retro" => .retroModule
  | "insights" => .constructionNotice "🧠 AI Insights Dashboard - Implementation in Progress"
  | "integrations" => .constructionNotice "🔗 Enterprise Integrations - Implementation in Progress"
  | "dashboard" => .dashboard
  | _ => .dashboard

end App

/-- An input that cannot extend a decimal digit run: empty or headed by a
non-digit.  Everything the printer puts after a number qualifies. -/
def digitStop : List Char → Bool
  | [] => true
  | c :: _ => !decDigit c

/-! ## The serialize-then-parse round trip

`jsonParse (stringify v) = some v` for every `JValue`, proven below through
inverse lemmas for numbers, strings, and the two recursive shapes. -/

theorem digitChar_decDigit {k : Nat} (h : k < 10) :
    decDigit (Nat.digitChar k) = true ∧ (Nat.digitChar k).toNat - '0'.toNat = k := by
  interval_cases k <;> exact ⟨rfl, rfl⟩

theorem decimalDigits_digits (n : Nat) : ∀ c ∈ decimalDigits n, decDigit c = true := by
  induction n using Nat.strongRecOn with
  | _ n ih =>
    intro c hc
    rw [decimalDigits] at hc
    by_cases h : n < 10
    · rw [dif_pos h, List.mem_singleton] at hc
      exact hc ▸ (digitChar_decDigit h).1
    · rw [dif_neg h, List.mem_append] at hc
      rcases hc with hc | hc
      · exact ih (n / 10) (Nat.div_lt_self (by omega) (by omega)) c hc
      · rw [List.mem_singleton] at hc
        exact hc ▸ (digitChar_decDigit (Nat.mod_lt _ (by omega))).1

theorem decimalDigits_ne_nil (n : Nat) : decimalDigits n ≠ [] := by
  rw [decimalDigits]
  by_cases h : n < 10
  · rw [dif_pos h]; simp
  · rw [dif_neg h]; simp

theorem decimalDigits_head (n : Nat) :
    ∃ c t, decimalDigits n = c :: t ∧ decDigit c = true := by
  cases h : decimalDigits n with
  | nil => exact absurd h (decimalDigits_ne_nil n)
  | cons c t =>
      exact ⟨c, t, rfl, decimalDigits_digits n c (h ▸ List.mem_cons_self ..)⟩

theorem digitsValue_decimalDigits (n : Nat) : digitsValue (decimalDigits n) = n := by
  induction n using Nat.strongRecOn with
  | _ n ih =>
    rw [decimalDigits]
    by_cases h : n < 10
    · rw [dif_pos h]
      unfold digitsValue
      rw [List.foldl_cons, List.foldl_nil, (digitChar_decDigit h).2]
      omega
    · rw [dif_neg h]
      unfold digitsValue
      rw [List.foldl_append, List.foldl_cons, List.foldl_nil]
      have := ih (n / 10) (Nat.div_lt_self (by omega) (by omega))
      unfold digitsValue at this
      rw [this, (digitChar_decDigit (Nat.mod_lt _ (by omega))).2]
      omega

theorem takeWhile_digits_stop {ds rest : List Char}
    (hds : ∀ c ∈ ds, decDigit c = true) (hrest : digitStop rest = true) :
    (ds ++ rest).takeWhile decDigit = ds ∧ (ds ++ rest).dropWhile decDigit = rest := by
  induction ds with
  | nil =>
      simp only [List.nil_append]
      cases rest with
      | nil => exact ⟨rfl, rfl⟩
      | cons c t =>
          simp only [digitStop, Bool.not_eq_true'] at hrest
          rw [List.takeWhile_cons, List.dropWhile_cons, hrest]
          exact ⟨rfl, by simp⟩
  | cons c t ih =>
      have hc := hds c (List.mem_cons_self ..)
      have ht := ih (fun x hx => hds x (List.mem_cons_of_mem _ hx))
      rw [List.cons_append, List.takeWhile_cons, List.dropWhile_cons, hc]
      simp only [if_true]
      exact ⟨by rw [ht.1], ht.2⟩

theorem readNat_decimalDigits (n : Nat) (rest : List Char) (hrest : digitStop rest = true) :
    readNat (decimalDigits n ++ rest) = some (n, rest) := by
  obtain ⟨htake, hdrop⟩ := takeWhile_digits_stop (decimalDigits_digits n) hrest
  rw [readNat, htake, hdrop]
  rw [if_neg (by simpa using decimalDigits_ne_nil n)]
  rw [digitsValue_decimalDigits]

theorem readInt_intDecimal (n : Int) (rest : List Char) (hrest : digitStop rest = true) :
    readInt (intDecimal n ++ rest) = some (n, rest) := by
  by_cases hn : n < 0
  · have harg : intDecimal n ++ rest = '-' :: (decimalDigits n.natAbs ++ rest) := by
      rw [intDecimal, if_pos hn, List.cons_append]
    have hstep : readInt ('-' :: (decimalDigits n.natAbs ++ rest))
        = (readNat (decimalDigits n.natAbs ++ rest)).map fun p => (-(p.1 : Int), p.2) := rfl
    rw [harg, hstep, readNat_decimalDigits n.natAbs rest hrest]
    simp only [Option.map_some']
    have hval : -((n.natAbs : Int)) = n := by omega
    rw [hval]
  · obtain ⟨c, t, hct, hc⟩ := decimalDigits_head n.natAbs
    have harg : intDecimal n ++ rest = c :: (t ++ rest) := by
      rw [intDecimal, if_neg hn, hct, List.cons_append]
    have hcm : c ≠ '-' := by
      intro h
      rw [h] at hc
      exact absurd hc (by decide)
    have hcond : (c :: (t ++ rest)).head? ≠ some '-' := by
      simp only [List.head?_cons, ne_eq, Option.some.injEq]
      exact hcm
    rw [harg, readInt, if_neg hcond, ← harg]
    rw [intDecimal, if_neg hn, readNat_decimalDigits n.natAbs rest hrest]
    simp only [Option.map_some']
    have hval : ((n.natAbs : Int)) = n := by omega
    rw [hval]

theorem hexDigitValue_lowerHexDigit {d : Nat} (h : d < 16) :
    hexDigitValue (lowerHexDigit d) = some d := by
  interval_cases d <;> rfl

theorem readStringBody_escape (c : Char) (rest : List Char) :
    readStringBody (jsonEscapeChar c ++ rest)
      = (readStringBody rest).map fun p => (c :: p.1, p.2) := by
  rw [jsonEscapeChar]
  by_cases h1 : c = '"'
  · subst h1
    rw [if_pos rfl]
    cases hr : readStringBody rest <;> simp [readStringBody, jsonUnescape, hr]
  rw [if_neg h1]
  by_cases h2 : c = '\\'
  · subst h2
    rw [if_pos rfl]
    cases hr : readStringBody rest <;> simp [readStringBody, jsonUnescape, hr]
  rw [if_neg h2]
  by_cases h3 : c = '\x08'
  · subst h3
    rw [if_pos rfl]
    cases hr : readStringBody rest <;> simp [readStringBody, jsonUnescape, hr]
  rw [if_neg h3]
  by_cases h4 : c = '\x0c'
  · subst h4
    rw [if_pos rfl]
    cases hr : readStringBody rest <;> simp [readStringBody, jsonUnescape, hr]
  rw [if_neg h4]
  by_cases h5 : c = '\n'
  · subst h5
    rw [if_pos rfl]
    cases hr : readStringBody rest <;> simp [readStringBody, jsonUnescape, hr]
  rw [if_neg h5]
  by_cases h6 : c = '\x0d'
  · subst h6
    rw [if_pos rfl]
    cases hr : readStringBody rest <;> simp [readStringBody, jsonUnescape, hr]
  rw [if_neg h6]
  by_cases h7 : c = '\t'
  · subst h7
    rw [if_pos rfl]
    cases hr : readStringBody rest <;> simp [readStringBody, jsonUnescape, hr]
  rw [if_neg h7]
  by_cases h8 : c.toNat < 32
  · rw [if_pos h8]
    have hv1 : hexDigitValue (lowerHexDigit (c.toNat / 16)) = some (c.toNat / 16) :=
      hexDigitValue_lowerHexDigit (by omega)
    have hv2 : hexDigitValue (lowerHexDigit (c.toNat % 16)) = some (c.toNat % 16) :=
      hexDigitValue_lowerHexDigit (Nat.mod_lt _ (by omega))
    have h0 : hexDigitValue '0' = some 0 := rfl
    have harith : c.toNat / 16 * 16 + c.toNat % 16 = c.toNat := by omega
    have hchar : Char.ofNat c.toNat = c := Char.ofNat_toNat c
    cases hr : readStringBody rest <;>
      simp [readStringBody, h0, hv1, hv2, harith, hchar, hr]
  · rw [if_neg h8]
    simp only [List.cons_append, List.nil_append]
    rw [readStringBody.eq_def]
    cases hr : readStringBody rest <;> simp [h1, h2, hr]

theorem readStringBody_quote (cs : List Char) : ∀ rest : List Char,
    readStringBody (cs.flatMap jsonEscapeChar ++ '"' :: rest) = some (cs, rest) := by
  induction cs with
  | nil => intro rest; rfl
  | cons c t ih =>
      intro rest
      rw [List.flatMap_cons, List.append_assoc, readStringBody_escape, ih]
      rfl

/-! Whitespace facts: the printer only ever puts newlines and indent spaces
in front of a token, and `chopWs` removes exactly those. -/

theorem chopWs_ws {c : Char} (h : jsonWs c = true) (x : List Char) :
    chopWs (c :: x) = chopWs x := by
  rw [chopWs, if_pos h]

theorem chopWs_not_ws {c : Char} (h : jsonWs c = false) (x : List Char) :
    chopWs (c :: x) = c :: x := by
  rw [chopWs, if_neg (by simp [h])]

theorem chopWs_spaces (k : Nat) (x : List Char) :
    chopWs (List.replicate k ' ' ++ x) = chopWs x := by
  induction k with
  | zero => rfl
  | succ m ih =>
      rw [List.replicate_succ, List.cons_append,
          chopWs_ws (show jsonWs ' ' = true from rfl), ih]

theorem chopWs_indent (lvl : Nat) (x : List Char) :
    chopWs (jsonIndent lvl ++ x) = chopWs x := chopWs_spaces (2 * lvl) x

theorem chopWs_chopWs (x : List Char) : chopWs (chopWs x) = chopWs x := by
  induction x with
  | nil => rfl
  | cons c t ih =>
      by_cases h : jsonWs c = true
      · rw [chopWs_ws h, ih]
      · rw [chopWs_not_ws (by simpa using h), chopWs_not_ws (by simpa using h)]

theorem readValue_chopWs (f : Nat) (cs : List Char) :
    readValue f (chopWs cs) = readValue f cs := by
  cases f with
  | zero => rfl
  | succ g =>
      simp only [readValue]
      rw [chopWs_chopWs]

theorem readElems_chopWs (f : Nat) (cs : List Char) :
    readElems f (chopWs cs) = readElems f cs := by
  cases f with
  | zero => rfl
  | succ g =>
      simp only [readElems]
      rw [readValue_chopWs]

theorem readMembers_chopWs (f : Nat) (cs : List Char) :
    readMembers f (chopWs cs) = readMembers f cs := by
  cases f with
  | zero => rfl
  | succ g =>
      simp only [readMembers]
      rw [chopWs_chopWs]

theorem decDigit_ne {c : Char} (h : decDigit c = true) :
    jsonWs c = false ∧ c ≠ ']' ∧ c ≠ '\x7d' ∧ c ≠ '-' ∧ c ≠ 'n' ∧ c ≠ 't' ∧
      c ≠ 'f' ∧ c ≠ '"' ∧ c ≠ '[' ∧ c ≠ '\x7b' := by
  refine ⟨?_, ?_, ?_, ?_, ?_, ?_, ?_, ?_, ?_, ?_⟩
  · by_contra hws
    simp only [Bool.not_eq_false] at hws
    simp only [jsonWs, Bool.or_eq_true, beq_iff_eq] at hws
    rcases hws with ((rfl | rfl) | rfl) | rfl <;> exact absurd h (by decide)
  all_goals (intro hceq; rw [hceq] at h; exact absurd h (by decide))

/-- Every printed value starts with a character that is neither whitespace
nor a closing bracket. -/
theorem stringifyAt_head (v : JValue) (lvl : Nat) :
    ∃ c t, stringifyAt v lvl = c :: t ∧ jsonWs c = false ∧ c ≠ ']' ∧ c ≠ '\x7d' := by
  cases v with
  | null => exact ⟨'n', ['u', 'l', 'l'], by simp [stringifyAt], by decide, by decide, by decide⟩
  | bool b =>
      cases b with
      | true =>
          exact ⟨'t', ['r', 'u', 'e'], by simp [stringifyAt], by decide, by decide, by decide⟩
      | false =>
          exact ⟨'f', ['a', 'l', 's', 'e'], by simp [stringifyAt], by decide, by decide, by decide⟩
  | num n =>
      by_cases hn : n < 0
      · exact ⟨'-', decimalDigits n.natAbs, by simp [stringifyAt, intDecimal, hn],
          by decide, by decide, by decide⟩
      · obtain ⟨c, t, hct, hc⟩ := decimalDigits_head n.natAbs
        obtain ⟨hws, h1, h2, _⟩ := decDigit_ne hc
        exact ⟨c, t, by simp [stringifyAt, intDecimal, hn, hct], hws, h1, h2⟩
  | str s =>
      exact ⟨'"', s.data.flatMap jsonEscapeChar ++ ['"'], by simp [stringifyAt, jsonQuote],
        by decide, by decide, by decide⟩
  | arr es =>
      cases es with
      | nil => exact ⟨'[', [']'], by simp [stringifyAt], by decide, by decide, by decide⟩
      | cons e t =>
          exact ⟨'[', stringifyElems (e :: t) lvl ++ '\n' :: (jsonIndent lvl ++ [']']),
            by simp [stringifyAt], by decide, by decide, by decide⟩
  | obj fs =>
      cases fs with
      | nil => exact ⟨'\x7b', ['\x7d'], by simp [stringifyAt], by decide, by decide, by decide⟩
      | cons f t =>
          exact ⟨'\x7b', stringifyFields (f :: t) lvl ++ '\n' :: (jsonIndent lvl ++ ['\x7d']),
            by simp [stringifyAt], by decide, by decide, by decide⟩

/-- `chopWs` leaves a printed value alone. -/
theorem chopWs_stringifyAt (v : JValue) (lvl : Nat) (x : List Char) :
    chopWs (stringifyAt v lvl ++ x) = stringifyAt v lvl ++ x := by
  obtain ⟨c, t, hct, hws, _, _⟩ := stringifyAt_head v lvl
  rw [hct, List.cons_append, chopWs_not_ws hws]

/-! One-step unfoldings of the parser at successor fuel, all definitional. -/

theorem readValue_quote_step (f : Nat) (r : List Char) :
    readValue (f + 1) ('"' :: r)
      = (readStringBody r).map fun p => (JValue.str (String.mk p.1), p.2) := rfl

theorem readValue_arr_step (f : Nat) (y : List Char) :
    readValue (f + 1) ('[' :: y)
      = (match chopWs y with
         | [] => none
         | c :: r2 =>
             if c = ']' then some (JValue.arr [], r2)
             else (readElems f (c :: r2)).map fun p => (JValue.arr p.1, p.2)) := rfl

theorem readValue_obj_step (f : Nat) (y : List Char) :
    readValue (f + 1) ('\x7b' :: y)
      = (match chopWs y with
         | [] => none
         | c :: r2 =>
             if c = '\x7d' then some (JValue.obj [], r2)
             else (readMembers f (c :: r2)).map fun p => (JValue.obj p.1, p.2)) := rfl

theorem readElems_step (f : Nat) (cs : List Char) :
    readElems (f + 1) cs
      = (match readValue f cs with
         | none => none
         | some (v, r) =>
             match chopWs r with
             | ',' :: r2 => (readElems f r2).map fun p => (v :: p.1, p.2)
             | ']' :: r2 => some ([v], r2)
             | _ => none) := rfl

theorem readMembers_step (f : Nat) (cs : List Char) :
    readMembers (f + 1) cs
      = (match chopWs cs with
         | '"' :: r =>
             match readStringBody r with
             | none => none
             | some (k, r1) =>
                 match chopWs r1 with
                 | ':' :: r2 =>
                     match readValue f r2 with
                     | none => none
                     | some (v, r3) =>
                         match chopWs r3 with
                         | ',' :: r4 =>
                             (readMembers f r4).map fun p => ((String.mk k, v) :: p.1, p.2)
                         | '\x7d' :: r4 => some ([(String.mk k, v)], r4)
                         | _ => none
                 | _ => none
         | _ => none) := rfl

/-- A non-number head that begins no keyword, string, array or object sends
the parser to the number branch. -/
theorem readValue_num_head (f : Nat) (c : Char) (t : List Char)
    (hws : jsonWs c = false) (h1 : c ≠ 'n') (h2 : c ≠ 't') (h3 : c ≠ 'f')
    (h4 : c ≠ '"') (h5 : c ≠ '[') (h6 : c ≠ '\x7b')
    (hg : c = '-' ∨ decDigit c = true) :
    readValue (f + 1) (c :: t) = (readInt (c :: t)).map fun p => (JValue.num p.1, p.2) := by
  simp only [readValue]
  rw [chopWs_not_ws hws]
  split
  · rename_i heq; rw [List.cons.injEq] at heq; exact absurd heq.1 h1
  · rename_i heq; rw [List.cons.injEq] at heq; exact absurd heq.1 h2
  · rename_i heq; rw [List.cons.injEq] at heq; exact absurd heq.1 h3
  · rename_i heq; rw [List.cons.injEq] at heq; exact absurd heq.1 h4
  · rename_i heq; rw [List.cons.injEq] at heq; exact absurd heq.1 h5
  · rename_i heq; rw [List.cons.injEq] at heq; exact absurd heq.1 h6
  · rename_i c' t' heq
    rw [List.cons.injEq] at heq
    obtain ⟨rfl, rfl⟩ := heq
    rw [if_pos (by simpa using hg)]
  · rename_i heq; exact absurd heq (by simp)

/-- After dropping the newline and indent the printer puts before the first
array element, the parser sees that element's first character. -/
theorem chopWs_elems (e : JValue) (es : List JValue) (lvl : Nat) (z : List Char) :
    ∃ t, chopWs (stringifyElems (e :: es) lvl ++ z) = stringifyAt e (lvl + 1) ++ t := by
  cases es with
  | nil =>
      refine ⟨z, ?_⟩
      simp only [stringifyElems, List.cons_append, List.append_assoc]
      rw [chopWs_ws (show jsonWs '\n' = true from rfl), chopWs_indent, chopWs_stringifyAt]
  | cons e2 es' =>
      refine ⟨',' :: (stringifyElems (e2 :: es') lvl ++ z), ?_⟩
      simp only [stringifyElems, List.cons_append, List.append_assoc]
      rw [chopWs_ws (show jsonWs '\n' = true from rfl), chopWs_indent, chopWs_stringifyAt]

/-- Likewise for the first member of an object: the parser sees the key's
opening quote. -/
theorem chopWs_fields (k : String) (v : JValue) (fs : List (String × JValue))
    (lvl : Nat) (z : List Char) :
    ∃ t, chopWs (stringifyFields ((k, v) :: fs) lvl ++ z) = '"' :: t := by
  cases fs with
  | nil =>
      refine ⟨k.data.flatMap jsonEscapeChar ++ ('"' :: (':' :: (' ' :: (stringifyAt v (lvl + 1) ++ z)))), ?_⟩
      simp only [stringifyFields, jsonQuote, List.cons_append, List.append_assoc]
      rw [chopWs_ws (show jsonWs '\n' = true from rfl), chopWs_indent,
          chopWs_not_ws (show jsonWs '"' = false from rfl)]
      simp [List.append_assoc]
  | cons f2 fs' =>
      refine ⟨k.data.flatMap jsonEscapeChar ++ ('"' :: (':' :: (' ' :: (stringifyAt v (lvl + 1)
        ++ (',' :: (stringifyFields (f2 :: fs') lvl ++ z)))))), ?_⟩
      obtain ⟨k2, v2⟩ := f2
      simp only [stringifyFields, jsonQuote, List.cons_append, List.append_assoc]
      rw [chopWs_ws (show jsonWs '\n' = true from rfl), chopWs_indent,
          chopWs_not_ws (show jsonWs '"' = false from rfl)]
      simp [List.append_assoc]

mutual

/-- Parsing a printed value recovers it, given fuel past its length and a
remainder that cannot extend a numeral. -/
theorem readValue_stringifyAt :
    ∀ (v : JValue) (lvl fuel : Nat) (rest : List Char),
      (stringifyAt v lvl).length < fuel → digitStop rest = true →
      readValue fuel (stringifyAt v lvl ++ rest) = some (v, rest)
  | .null, lvl, fuel, rest, hf, _ => by
      cases fuel with
      | zero => exact absurd hf (Nat.not_lt_zero _)
      | succ f =>
          simp only [stringifyAt, List.cons_append, List.nil_append]
          rfl
  | .bool true, lvl, fuel, rest, hf, _ => by
      cases fuel with
      | zero => exact absurd hf (Nat.not_lt_zero _)
      | succ f =>
          simp only [stringifyAt, List.cons_append, List.nil_append]
          rfl
  | .bool false, lvl, fuel, rest, hf, _ => by
      cases fuel with
      | zero => exact absurd hf (Nat.not_lt_zero _)
      | succ f =>
          simp only [stringifyAt, List.cons_append, List.nil_append]
          rfl
  | .num n, lvl, fuel, rest, hf, hr => by
      cases fuel with
      | zero => exact absurd hf (Nat.not_lt_zero _)
      | succ f =>
          simp only [stringifyAt]
          by_cases hn : n < 0
          · have harg : intDecimal n ++ rest = '-' :: (decimalDigits n.natAbs ++ rest) := by
              rw [intDecimal, if_pos hn, List.cons_append]
            rw [harg, readValue_num_head f '-' _ (by decide) (by decide) (by decide) (by decide)
                  (by decide) (by decide) (by decide) (Or.inl rfl), ← harg,
                readInt_intDecimal n rest hr]
            rfl
          · obtain ⟨c, t, hct, hc⟩ := decimalDigits_head n.natAbs
            obtain ⟨hws, _, _, _, hd1, hd2, hd3, hd4, hd5, hd6⟩ := decDigit_ne hc
            have harg : intDecimal n ++ rest = c :: (t ++ rest) := by
              rw [intDecimal, if_neg hn, hct, List.cons_append]
            rw [harg, readValue_num_head f c _ hws hd1 hd2 hd3 hd4 hd5 hd6 (Or.inr hc), ← harg,
                readInt_intDecimal n rest hr]
            rfl
  | .str s, lvl, fuel, rest, hf, _ => by
      cases fuel with
      | zero => exact absurd hf (Nat.not_lt_zero _)
      | succ f =>
          have harg : stringifyAt (.str s) lvl ++ rest
              = '"' :: (s.data.flatMap jsonEscapeChar ++ '"' :: rest) := by
            simp [stringifyAt, jsonQuote]
          rw [harg, readValue_quote_step, readStringBody_quote]
          rfl
  | .arr [], lvl, fuel, rest, hf, _ => by
      cases fuel with
      | zero => exact absurd hf (Nat.not_lt_zero _)
      | succ f =>
          simp only [stringifyAt, List.cons_append, List.nil_append]
          rfl
  | .arr (e :: es), lvl, fuel, rest, hf, _ => by
      cases fuel with
      | zero => exact absurd hf (Nat.not_lt_zero _)
      | succ f =>
          have hfe : (stringifyElems (e :: es) lvl).length < f := by
            simp only [stringifyAt, List.length_cons, List.length_append, jsonIndent,
              List.length_replicate] at hf
            omega
          have harg : stringifyAt (.arr (e :: es)) lvl ++ rest
              = '[' :: (stringifyElems (e :: es) lvl
                  ++ ('\n' :: (jsonIndent lvl ++ (']' :: rest)))) := by
            simp [stringifyAt, List.append_assoc]
          obtain ⟨w, hw⟩ := chopWs_elems e es lvl ('\n' :: (jsonIndent lvl ++ (']' :: rest)))
          obtain ⟨c0, t0, hct, _, hne, _⟩ := stringifyAt_head e (lvl + 1)
          rw [harg, readValue_arr_step]
          rw [hw, hct, List.cons_append]
          simp only []
          rw [if_neg hne]
          rw [show c0 :: (t0 ++ w) = stringifyAt e (lvl + 1) ++ w from by
                rw [hct, List.cons_append],
              ← hw, readElems_chopWs,
              readElems_stringifyElems e es lvl f rest hfe]
          rfl
  | .obj [], lvl, fuel, rest, hf, _ => by
      cases fuel with
      | zero => exact absurd hf (Nat.not_lt_zero _)
      | succ f =>
          simp only [stringifyAt, List.cons_append, List.nil_append]
          rfl
  | .obj ((k, v) :: fs), lvl, fuel, rest, hf, _ => by
      cases fuel with
      | zero => exact absurd hf (Nat.not_lt_zero _)
      | succ f =>
          have hfm : (stringifyFields ((k, v) :: fs) lvl).length < f := by
            simp only [stringifyAt, List.length_cons, List.length_append, jsonIndent,
              List.length_replicate] at hf
            omega
          have harg : stringifyAt (.obj ((k, v) :: fs)) lvl ++ rest
              = '\x7b' :: (stringifyFields ((k, v) :: fs) lvl
                  ++ ('\n' :: (jsonIndent lvl ++ ('\x7d' :: rest)))) := by
            simp [stringifyAt, List.append_assoc]
          obtain ⟨w, hw⟩ := chopWs_fields k v fs lvl ('\n' :: (jsonIndent lvl ++ ('\x7d' :: rest)))
          rw [harg, readValue_obj_step]
          rw [hw]
          simp only []
          rw [if_neg (show ('"' : Char) ≠ '\x7d' by decide)]
          rw [show ('"' :: w : List Char) = chopWs (stringifyFields ((k, v) :: fs) lvl
                ++ ('\n' :: (jsonIndent lvl ++ ('\x7d' :: rest)))) from hw.symm,
              readMembers_chopWs,
              readMembers_stringifyFields k v fs lvl f rest hfm]
          rfl
termination_by v lvl fuel _ _ _ => sizeOf v

/-- Parsing a printed element list recovers it, stopping at the closing
bracket the printer placed after it. -/
theorem readElems_stringifyElems :
    ∀ (e : JValue) (es : List JValue) (lvl fuel : Nat) (rest : List Char),
      (stringifyElems (e :: es) lvl).length < fuel →
      readElems fuel (stringifyElems (e :: es) lvl
          ++ ('\n' :: (jsonIndent lvl ++ (']' :: rest))))
        = some (e :: es, rest)
  | e, [], lvl, fuel, rest, hf => by
      cases fuel with
      | zero => exact absurd hf (Nat.not_lt_zero _)
      | succ f =>
          have hfe : (stringifyAt e (lvl + 1)).length < f := by
            simp only [stringifyElems, List.length_cons, List.length_append, jsonIndent,
              List.length_replicate] at hf
            omega
          have hin : stringifyElems [e] lvl ++ ('\n' :: (jsonIndent lvl ++ (']' :: rest)))
              = '\n' :: (jsonIndent (lvl + 1) ++ (stringifyAt e (lvl + 1)
                  ++ ('\n' :: (jsonIndent lvl ++ (']' :: rest))))) := by
            simp [stringifyElems, List.append_assoc]
          have hv : readValue f ('\n' :: (jsonIndent (lvl + 1) ++ (stringifyAt e (lvl + 1)
              ++ ('\n' :: (jsonIndent lvl ++ (']' :: rest))))))
              = some (e, '\n' :: (jsonIndent lvl ++ (']' :: rest))) := by
            rw [← readValue_chopWs]
            rw [chopWs_ws (show jsonWs '\n' = true from rfl), chopWs_indent, chopWs_stringifyAt]
            exact readValue_stringifyAt e (lvl + 1) f _ hfe rfl
          have hclose : chopWs ('\n' :: (jsonIndent lvl ++ (']' :: rest))) = ']' :: rest := by
            rw [chopWs_ws (show jsonWs '\n' = true from rfl), chopWs_indent,
                chopWs_not_ws (show jsonWs ']' = false from rfl)]
          rw [readElems_step, hin]
          simp only [hv, hclose]
  | e, e2 :: es', lvl, fuel, rest, hf => by
      cases fuel with
      | zero => exact absurd hf (Nat.not_lt_zero _)
      | succ f =>
          have hfe : (stringifyAt e (lvl + 1)).length < f := by
            simp only [stringifyElems, List.length_cons, List.length_append, jsonIndent,
              List.length_replicate] at hf
            omega
          have hfes : (stringifyElems (e2 :: es') lvl).length < f := by
            simp only [stringifyElems, List.length_cons, List.length_append, jsonIndent,
              List.length_replicate] at hf ⊢
            omega
          have hin : stringifyElems (e :: e2 :: es') lvl
                ++ ('\n' :: (jsonIndent lvl ++ (']' :: rest)))
              = '\n' :: (jsonIndent (lvl + 1) ++ (stringifyAt e (lvl + 1)
                  ++ (',' :: (stringifyElems (e2 :: es') lvl
                      ++ ('\n' :: (jsonIndent lvl ++ (']' :: rest))))))) := by
            simp [stringifyElems, List.append_assoc]
          have hv : readValue f ('\n' :: (jsonIndent (lvl + 1) ++ (stringifyAt e (lvl + 1)
              ++ (',' :: (stringifyElems (e2 :: es') lvl
                  ++ ('\n' :: (jsonIndent lvl ++ (']' :: rest))))))))
              = some (e, ',' :: (stringifyElems (e2 :: es') lvl
                  ++ ('\n' :: (jsonIndent lvl ++ (']' :: rest))))) := by
            rw [← readValue_chopWs]
            rw [chopWs_ws (show jsonWs '\n' = true from rfl), chopWs_indent, chopWs_stringifyAt]
            exact readValue_stringifyAt e (lvl + 1) f _ hfe rfl
          have hcomma : chopWs (',' :: (stringifyElems (e2 :: es') lvl
              ++ ('\n' :: (jsonIndent lvl ++ (']' :: rest)))))
              = ',' :: (stringifyElems (e2 :: es') lvl
                  ++ ('\n' :: (jsonIndent lvl ++ (']' :: rest)))) :=
            chopWs_not_ws (show jsonWs ',' = false from rfl) _
          rw [readElems_step, hin]
          simp only [hv, hcomma]
          rw [readElems_stringifyElems e2 es' lvl f rest hfes]
          rfl
termination_by e es lvl fuel _ _ => sizeOf e + sizeOf es

/-- Parsing a printed member list recovers it, stopping at the closing
brace the printer placed after it. -/
theorem readMembers_stringifyFields :
    ∀ (k : String) (v : JValue) (fs : List (String × JValue)) (lvl fuel : Nat)
      (rest : List Char),
      (stringifyFields ((k, v) :: fs) lvl).length < fuel →
      readMembers fuel (stringifyFields ((k, v) :: fs) lvl
          ++ ('\n' :: (jsonIndent lvl ++ ('\x7d' :: rest))))
        = some ((k, v) :: fs, rest)
  | k, v, [], lvl, fuel, rest, hf => by
      cases fuel with
      | zero => exact absurd hf (Nat.not_lt_zero _)
      | succ f =>
          have hfv : (stringifyAt v (lvl + 1)).length < f := by
            simp only [stringifyFields, jsonQuote, List.length_cons, List.length_append,
              jsonIndent, List.length_replicate] at hf
            omega
          have hin : stringifyFields [(k, v)] lvl ++ ('\n' :: (jsonIndent lvl ++ ('\x7d' :: rest)))
              = '\n' :: (jsonIndent (lvl + 1) ++ ('"' :: (k.data.flatMap jsonEscapeChar
                  ++ ('"' :: (':' :: (' ' :: (stringifyAt v (lvl + 1)
                      ++ ('\n' :: (jsonIndent lvl ++ ('\x7d' :: rest)))))))))) := by
            simp [stringifyFields, jsonQuote, List.append_assoc]
          have hchop : chopWs ('\n' :: (jsonIndent (lvl + 1) ++ ('"' :: (k.data.flatMap jsonEscapeChar
              ++ ('"' :: (':' :: (' ' :: (stringifyAt v (lvl + 1)
                  ++ ('\n' :: (jsonIndent lvl ++ ('\x7d' :: rest)))))))))))
              = '"' :: (k.data.flatMap jsonEscapeChar
                  ++ ('"' :: (':' :: (' ' :: (stringifyAt v (lvl + 1)
                      ++ ('\n' :: (jsonIndent lvl ++ ('\x7d' :: rest)))))))) := by
            rw [chopWs_ws (show jsonWs '\n' = true from rfl), chopWs_indent,
                chopWs_not_ws (show jsonWs '"' = false from rfl)]
          have hcolon : chopWs (':' :: (' ' :: (stringifyAt v (lvl + 1)
              ++ ('\n' :: (jsonIndent lvl ++ ('\x7d' :: rest))))))
              = ':' :: (' ' :: (stringifyAt v (lvl + 1)
                  ++ ('\n' :: (jsonIndent lvl ++ ('\x7d' :: rest))))) :=
            chopWs_not_ws (show jsonWs ':' = false from rfl) _
          have hv : readValue f (' ' :: (stringifyAt v (lvl + 1)
              ++ ('\n' :: (jsonIndent lvl ++ ('\x7d' :: rest)))))
              = some (v, '\n' :: (jsonIndent lvl ++ ('\x7d' :: rest))) := by
            rw [← readValue_chopWs]
            rw [chopWs_ws (show jsonWs ' ' = true from rfl), chopWs_stringifyAt]
            exact readValue_stringifyAt v (lvl + 1) f _ hfv rfl
          have hclose : chopWs ('\n' :: (jsonIndent lvl ++ ('\x7d' :: rest))) = '\x7d' :: rest := by
            rw [chopWs_ws (show jsonWs '\n' = true from rfl), chopWs_indent,
                chopWs_not_ws (show jsonWs '\x7d' = false from rfl)]
          rw [readMembers_step, hin]
          simp only [hchop, readStringBody_quote, hcolon, hv, hclose]
  | k, v, (k2, v2) :: fs', lvl, fuel, rest, hf => by
      cases fuel with
      | zero => exact absurd hf (Nat.not_lt_zero _)
      | succ f =>
          have hfv : (stringifyAt v (lvl + 1)).length < f := by
            simp only [stringifyFields, jsonQuote, List.length_cons, List.length_append,
              jsonIndent, List.length_replicate] at hf
            omega
          have hffs : (stringifyFields ((k2, v2) :: fs') lvl).length < f := by
            simp only [stringifyFields, jsonQuote, List.length_cons, List.length_append,
              jsonIndent, List.length_replicate] at hf ⊢
            omega
          have hin : stringifyFields ((k, v) :: (k2, v2) :: fs') lvl
                ++ ('\n' :: (jsonIndent lvl ++ ('\x7d' :: rest)))
              = '\n' :: (jsonIndent (lvl + 1) ++ ('"' :: (k.data.flatMap jsonEscapeChar
                  ++ ('"' :: (':' :: (' ' :: (stringifyAt v (lvl + 1)
                      ++ (',' :: (stringifyFields ((k2, v2) :: fs') lvl
                          ++ ('\n' :: (jsonIndent lvl ++ ('\x7d' :: rest)))))))))))) := by
            simp [stringifyFields, jsonQuote, List.append_assoc]
          have hchop : chopWs ('\n' :: (jsonIndent (lvl + 1) ++ ('"' :: (k.data.flatMap jsonEscapeChar
              ++ ('"' :: (':' :: (' ' :: (stringifyAt v (lvl + 1)
                  ++ (',' :: (stringifyFields ((k2, v2) :: fs') lvl
                      ++ ('\n' :: (jsonIndent lvl ++ ('\x7d' :: rest)))))))))))))
              = '"' :: (k.data.flatMap jsonEscapeChar
                  ++ ('"' :: (':' :: (' ' :: (stringifyAt v (lvl + 1)
                      ++ (',' :: (stringifyFields ((k2, v2) :: fs') lvl
                          ++ ('\n' :: (jsonIndent lvl ++ ('\x7d' :: rest)))))))))) := by
            rw [chopWs_ws (show jsonWs '\n' = true from rfl), chopWs_indent,
                chopWs_not_ws (show jsonWs '"' = false from rfl)]
          have hcolon : chopWs (':' :: (' ' :: (stringifyAt v (lvl + 1)
              ++ (',' :: (stringifyFields ((k2, v2) :: fs') lvl
                  ++ ('\n' :: (jsonIndent lvl ++ ('\x7d' :: rest))))))))
              = ':' :: (' ' :: (stringifyAt v (lvl + 1)
                  ++ (',' :: (stringifyFields ((k2, v2) :: fs') lvl
                      ++ ('\n' :: (jsonIndent lvl ++ ('\x7d' :: rest))))))) :=
            chopWs_not_ws (show jsonWs ':' = false from rfl) _
          have hv : readValue f (' ' :: (stringifyAt v (lvl + 1)
              ++ (',' :: (stringifyFields ((k2, v2) :: fs') lvl
                  ++ ('\n' :: (jsonIndent lvl ++ ('\x7d' :: rest)))))))
              = some (v, ',' :: (stringifyFields ((k2, v2) :: fs') lvl
                  ++ ('\n' :: (jsonIndent lvl ++ ('\x7d' :: rest))))) := by
            rw [← readValue_chopWs]
            rw [chopWs_ws (show jsonWs ' ' = true from rfl), chopWs_stringifyAt]
            exact readValue_stringifyAt v (lvl + 1) f _ hfv rfl
          have hcomma : chopWs (',' :: (stringifyFields ((k2, v2) :: fs') lvl
              ++ ('\n' :: (jsonIndent lvl ++ ('\x7d' :: rest)))))
              = ',' :: (stringifyFields ((k2, v2) :: fs') lvl
                  ++ ('\n' :: (jsonIndent lvl ++ ('\x7d' :: rest)))) :=
            chopWs_not_ws (show jsonWs ',' = false from rfl) _
          rw [readMembers_step, hin]
          simp only [hchop, readStringBody_quote, hcolon, hv, hcomma]
          rw [readMembers_stringifyFields k2 v2 fs' lvl f rest hffs]
          rfl
termination_by k v fs lvl fuel _ _ => sizeOf v + sizeOf fs

end

/-- **Serialize-then-parse round trip**: parsing the exported text recovers
the exported value exactly. -/
theorem jsonParse_stringify (data : JValue) : jsonParse (stringify data) = some data := by
  have h := readValue_stringifyAt data 0 ((stringifyAt data 0).length + 1) [] (by omega) rfl
  rw [List.append_nil] at h
  rw [jsonParse]
  rw [show (stringify data).data = stringifyAt data 0 from rfl]
  rw [h]
  rfl


/-! ## `String.prototype.trim` is idempotent -/

theorem dropWhile_head_false {α : Type} (p : α → Bool) (l : List α) (c : α) (t : List α)
    (h : l.dropWhile p = c :: t) : p c = false := by
  induction l with
  | nil => simp at h
  | cons a l ih =>
      rw [List.dropWhile_cons] at h
      cases hpa : p a with
      | true => rw [hpa] at h; simp only [if_true] at h; exact ih h
      | false =>
          rw [hpa] at h
          simp only [Bool.false_eq_true, if_false, List.cons.injEq] at h
          rw [← h.1]
          exact hpa

theorem jsTrim_eq_rdropWhile (s : String) :
    jsTrim s
      = String.mk (List.rdropWhile jsWhitespaceChar (s.data.dropWhile jsWhitespaceChar)) := rfl

theorem jsTrim_idem (s : String) : jsTrim (jsTrim s) = jsTrim s := by
  rw [jsTrim_eq_rdropWhile s,
      jsTrim_eq_rdropWhile (String.mk (List.rdropWhile jsWhitespaceChar
        (s.data.dropWhile jsWhitespaceChar)))]
  congr 1
  show List.rdropWhile jsWhitespaceChar
      ((List.rdropWhile jsWhitespaceChar (s.data.dropWhile jsWhitespaceChar)).dropWhile
        jsWhitespaceChar)
    = List.rdropWhile jsWhitespaceChar (s.data.dropWhile jsWhitespaceChar)
  have hdrop : (List.rdropWhile jsWhitespaceChar
      (s.data.dropWhile jsWhitespaceChar)).dropWhile jsWhitespaceChar
      = List.rdropWhile jsWhitespaceChar (s.data.dropWhile jsWhitespaceChar) := by
    cases hT : List.rdropWhile jsWhitespaceChar (s.data.dropWhile jsWhitespaceChar) with
    | nil => rfl
    | cons c t =>
        have hpre := List.rdropWhile_prefix jsWhitespaceChar (s.data.dropWhile jsWhitespaceChar)
        rw [hT] at hpre
        obtain ⟨u, hu⟩ := hpre
        have hD : s.data.dropWhile jsWhitespaceChar = c :: (t ++ u) := by
          rw [← hu]; simp
        have hc : jsWhitespaceChar c = false :=
          dropWhile_head_false jsWhitespaceChar s.data c (t ++ u) hD
        rw [List.dropWhile_cons, hc]
        simp
  rw [hdrop]
  exact List.rdropWhile_idempotent _ _

/-! ## The claims -/

/-- C1 (amended): only the two checks the handlers actually contain block a
submission: the standup handler's `team_member_id` guard and the ticket
generator's `description` guard, each alerting with a message naming the
offending field and issuing no request.  No other required field is checked
in a handler: with a team member selected, the standup handler posts even
when `yesterday` or `today` is empty, and the retrospective and blockers
handlers post for every input. -/
theorem submitValidationGuards :
    (∀ (st : ModuleState) (inp : StandupModule.StandupInput) (oc : AxiosOutcome),
        inp.team_member_id = "" →
        StandupModule.handleSubmit st inp oc
          = (st, [UiEvent.alert "Please select a team member"]))
    ∧ (∀ (st : ModuleState) (inp : SmartTicketGenerator.TicketInput) (oc : FetchOutcome),
        inp.description = "" →
        SmartTicketGenerator.handleSubmit st inp oc
          = (st, [UiEvent.alert "Please provide a ticket description"]))
    ∧ (∀ (st : ModuleState) (inp : StandupModule.StandupInput) (oc : AxiosOutcome),
        inp.team_member_id ≠ "" →
        UiEvent.post "/api/standup" ∈ (StandupModule.handleSubmit st inp oc).2)
    ∧ (∀ (st : ModuleState) (inp : RetroModule.RetroInput) (oc : AxiosOutcome),
        UiEvent.post "/api/retrospective" ∈ (RetroModule.handleSubmit st inp oc).2)
    ∧ (∀ (st : ModuleState) (inp : BlockersModule.BlockersInput) (oc : AxiosOutcome),
        UiEvent.post "/api/blockers" ∈ (BlockersModule.handleSubmit st inp oc).2) := by
  refine ⟨?_, ?_, ?_, ?_, ?_⟩
  · intro st inp oc h
    simp [StandupModule.handleSubmit, h]
  · intro st inp oc h
    simp [SmartTicketGenerator.handleSubmit, h]
  · intro st inp oc h
    cases oc <;> simp [StandupModule.handleSubmit, h]
  · intro st inp oc
    cases oc <;> simp [RetroModule.handleSubmit]
  · intro st inp oc
    cases oc <;> simp [BlockersModule.handleSubmit]

/-- C1 counterexample: the retrospective handler, given an input whose
required `went_well` field is empty, still issues the HTTP request (and
surfaces no validation error), so the claim as stated is false. -/
theorem retroSubmitsWithEmptyRequiredField :
    (RetroModule.handleSubmit {}
        { sprint_id := "SPRINT-24", went_well := "", went_poorly := "",
          improvements := "", team_mood := "neutral", velocity_achieved := 0,
          goals_met := 0 }
        (.ok .null)).2
      = [UiEvent.setLoading true, UiEvent.post "/api/retrospective",
         UiEvent.setOutput .null, UiEvent.setLoading false] := rfl

/-- C1 witness: the standup guard fires at an empty `team_member_id`, and a
non-empty `team_member_id` makes the standup handler post even though
`yesterday` and `today` are empty. -/
theorem submitValidationGuardsWitness :
    StandupModule.handleSubmit {}
        { team_member_id := "", yesterday := "", today := "", blockers := "",
          mood := "neutral", confidence_level := 5 } (.ok .null)
      = ({}, [UiEvent.alert "Please select a team member"])
    ∧ UiEvent.post "/api/standup"
        ∈ (StandupModule.handleSubmit {}
            { team_member_id := "1", yesterday := "", today := "", blockers := "",
              mood := "neutral", confidence_level := 5 } (.ok .null)).2 :=
  ⟨submitValidationGuards.1 {} _ (.ok .null) rfl,
   submitValidationGuards.2.2.1 {} _ (.ok .null) (by decide)⟩

/-- C2 (amended): exporting with a non-json format from a result without a
truthy `id` attempts no network call and raises no error; instead the
handler falls through to the json branch, downloading the full result
serialized by `JSON.stringify(data, null, 2)` as `{filename}.json`. -/
theorem exportWithoutIdFallsBackToJson :
    ∀ (data : JValue) (filename format : String) (oc : ExportOutcome),
      ((data.getProp "id").map JValue.truthy).getD false = false →
      format ≠ "json" →
      ExportButton.handleExport data filename format oc
        = [ExportEvent.download (filename ++ ".json") (stringify data) "application/json"] := by
  intro data filename format oc hid _hfmt
  simp [ExportButton.handleExport, hid]

/-- C2 counterexample: exporting with `format="jira"` from a result with no
`id` produces a file (the json fallback) and raises no error, so the claim
that no file is produced and an ExportError is raised is false. -/
theorem exportJiraWithoutIdDownloadsJson :
    ExportButton.handleExport (JValue.obj [("summary", .str "2 blockers detected")])
        "blocker-analysis" "jira" .err
      = [ExportEvent.download "blocker-analysis.json"
          (stringify (JValue.obj [("summary", .str "2 blockers detected")]))
          "application/json"] := rfl

/-- C2 witness: the amended fallback at a concrete id-less result. -/
theorem exportWithoutIdFallsBackToJsonWitness :
    ExportButton.handleExport (JValue.obj []) "report" "jira" .err
      = [ExportEvent.download "report.json" (stringify (JValue.obj []))
          "application/json"] :=
  exportWithoutIdFallsBackToJson (JValue.obj []) "report" "jira" .err rfl (by decide)

/-- C3 (confirmed): when the HTTP call fails — a thrown axios error, a
non-ok fetch status, or a thrown fetch error — every module's stored
`output` after the handler equals its value before the call. -/
theorem failedSubmitLeavesOutputUnchanged :
    (∀ (st : ModuleState) (inp : StandupModule.StandupInput),
        (StandupModule.handleSubmit st inp .err).1.output = st.output)
    ∧ (∀ (st : ModuleState) (inp : RetroModule.RetroInput),
        (RetroModule.handleSubmit st inp .err).1.output = st.output)
    ∧ (∀ (st : ModuleState) (inp : BlockersModule.BlockersInput),
        (BlockersModule.handleSubmit st inp .err).1.output = st.output)
    ∧ (∀ (st : ModuleState) (inp : SmartTicketGenerator.TicketInput) (detail : Option String),
        (SmartTicketGenerator.handleSubmit st inp (.badStatus detail)).1.output = st.output)
    ∧ (∀ (st : ModuleState) (inp : SmartTicketGenerator.TicketInput),
        (SmartTicketGenerator.handleSubmit st inp .failed).1.output = st.output) := by
  refine ⟨?_, ?_, ?_, ?_, ?_⟩
  · intro st inp
    by_cases h : inp.team_member_id = "" <;> simp [StandupModule.handleSubmit, h]
  · intro st inp
    simp [RetroModule.handleSubmit]
  · intro st inp
    simp [BlockersModule.handleSubmit]
  · intro st inp detail
    by_cases h : inp.description = "" <;> simp [SmartTicketGenerator.handleSubmit, h]
  · intro st inp
    by_cases h : inp.description = "" <;> simp [SmartTicketGenerator.handleSubmit, h]

/-- C4 (confirmed): on a successful call, every module stores exactly the
parsed response body as its new `output` — replaced in full, no merging
with the previous result. -/
theorem successfulSubmitReplacesOutput :
    (∀ (st : ModuleState) (inp : StandupModule.StandupInput) (data : JValue),
        inp.team_member_id ≠ "" →
        (StandupModule.handleSubmit st inp (.ok data)).1.output = some data)
    ∧ (∀ (st : ModuleState) (inp : RetroModule.RetroInput) (data : JValue),
        (RetroModule.handleSubmit st inp (.ok data)).1.output = some data)
    ∧ (∀ (st : ModuleState) (inp : BlockersModule.BlockersInput) (data : JValue),
        (BlockersModule.handleSubmit st inp (.ok data)).1.output = some data)
    ∧ (∀ (st : ModuleState) (inp : SmartTicketGenerator.TicketInput) (result : JValue),
        inp.description ≠ "" →
        (SmartTicketGenerator.handleSubmit st inp (.ok result)).1.output = some result) := by
  refine ⟨?_, ?_, ?_, ?_⟩
  · intro st inp data h
    simp [StandupModule.handleSubmit, h]
  · intro st inp data
    simp [RetroModule.handleSubmit]
  · intro st inp data
    simp [BlockersModule.handleSubmit]
  · intro st inp result h
    simp [SmartTicketGenerator.handleSubmit, h]

/-- C4 witness: a concrete successful standup submission stores exactly the
response body. -/
theorem successfulSubmitReplacesOutputWitness :
    (StandupModule.handleSubmit { output := some (.str "previous"), loading := false }
        { team_member_id := "1", yesterday := "did X", today := "will do Y",
          blockers := "", mood := "neutral", confidence_level := 5 }
        (.ok (.obj [("formatted_output", .str "...")]))).1.output
      = some (.obj [("formatted_output", .str "...")]) :=
  successfulSubmitReplacesOutput.1 _ _ _ (by decide)

/-- C5 (confirmed): with the dashboard's mount effect — an immediate fetch,
a 30000 ms `setInterval`, and an unconditional `clearInterval` cleanup —
exactly one fetch fires immediately on mount (none other fires within the
first interval), any two distinct fetches are at least one interval apart,
and no fetch fires at or after unmount. -/
theorem dashboardPollingSchedule :
    ∀ (u t t2 : Nat),
      (0 < u → Dashboard.pollEffect.firesAt u 0)
      ∧ (Dashboard.pollEffect.firesAt u t → t < Dashboard.pollEffect.delayMs → t = 0)
      ∧ (Dashboard.pollEffect.firesAt u t → Dashboard.pollEffect.firesAt u t2 → t ≠ t2 →
          t + Dashboard.pollEffect.delayMs ≤ t2 ∨ t2 + Dashboard.pollEffect.delayMs ≤ t)
      ∧ (u ≤ t → ¬ Dashboard.pollEffect.firesAt u t) := by
  intro u t t2
  refine ⟨?_, ?_, ?_, ?_⟩ <;>
    (simp only [Dashboard.pollEffect, IntervalEffect.firesAt]; simp; try omega)

/-- C5 witness: for a dashboard unmounted at 45000 ms, the immediate fetch
fires at mount and the 60000 ms tick does not fire. -/
theorem dashboardPollingScheduleWitness :
    Dashboard.pollEffect.firesAt 45000 0 ∧ ¬ Dashboard.pollEffect.firesAt 45000 60000 :=
  ⟨(dashboardPollingSchedule 45000 0 0).1 (by decide),
   (dashboardPollingSchedule 45000 60000 0).2.2.2 (by decide)⟩

/-- C6 (confirmed): exporting with `format=json` downloads exactly
`JSON.stringify(data, null, 2)` as `{filename}.json` with no network call,
and parsing that content recovers the in-memory result exactly. -/
theorem exportJsonRoundTrip :
    ∀ (data : JValue) (filename : String) (oc : ExportOutcome),
      ExportButton.handleExport data filename "json" oc
        = [ExportEvent.download (filename ++ ".json") (stringify data) "application/json"]
      ∧ jsonParse (stringify data) = some data := by
  intro data filename oc
  refine ⟨?_, jsonParse_stringify data⟩
  simp [ExportButton.handleExport]

/-- C7 (confirmed): each module's "Load example" ignores the prior form
state entirely — any two calls produce the same `FormInput`, and calling it
twice in a row equals calling it once.  It is a pure function in this
embedding. -/
theorem loadExampleDeterministic :
    (∀ a b : StandupModule.StandupInput,
        StandupModule.loadExample a = StandupModule.loadExample b)
    ∧ (∀ a : StandupModule.StandupInput,
        StandupModule.loadExample (StandupModule.loadExample a) = StandupModule.loadExample a)
    ∧ (∀ a b : RetroModule.RetroInput,
        RetroModule.loadExample a = RetroModule.loadExample b)
    ∧ (∀ a : RetroModule.RetroInput,
        RetroModule.loadExample (RetroModule.loadExample a) = RetroModule.loadExample a)
    ∧ (∀ a b : SmartTicketGenerator.TicketInput,
        SmartTicketGenerator.loadExample a = SmartTicketGenerator.loadExample b)
    ∧ (∀ a : SmartTicketGenerator.TicketInput,
        SmartTicketGenerator.loadExample (SmartTicketGenerator.loadExample a)
          = SmartTicketGenerator.loadExample a) :=
  ⟨fun _ _ => rfl, fun _ => rfl, fun _ _ => rfl, fun _ => rfl, fun _ _ => rfl, fun _ => rfl⟩

/-- C8 (confirmed): whenever a submit handler issues its request, its event
trace starts with `setLoading true` (before the request) and ends with
`setLoading false` (the `finally` block), on the success and failure paths
alike. -/
theorem loadingFlagWrapsRequest :
    (∀ (st : ModuleState) (inp : StandupModule.StandupInput) (oc : AxiosOutcome) (p : String),
        UiEvent.post p ∈ (StandupModule.handleSubmit st inp oc).2 →
        (StandupModule.handleSubmit st inp oc).2.head? = some (UiEvent.setLoading true)
          ∧ (StandupModule.handleSubmit st inp oc).2.getLast? = some (UiEvent.setLoading false))
    ∧ (∀ (st : ModuleState) (inp : RetroModule.RetroInput) (oc : AxiosOutcome) (p : String),
        UiEvent.post p ∈ (RetroModule.handleSubmit st inp oc).2 →
        (RetroModule.handleSubmit st inp oc).2.head? = some (UiEvent.setLoading true)
          ∧ (RetroModule.handleSubmit st inp oc).2.getLast? = some (UiEvent.setLoading false))
    ∧ (∀ (st : ModuleState) (inp : BlockersModule.BlockersInput) (oc : AxiosOutcome) (p : String),
        UiEvent.post p ∈ (BlockersModule.handleSubmit st inp oc).2 →
        (BlockersModule.handleSubmit st inp oc).2.head? = some (UiEvent.setLoading true)
          ∧ (BlockersModule.handleSubmit st inp oc).2.getLast? = some (UiEvent.setLoading false))
    ∧ (∀ (st : ModuleState) (inp : SmartTicketGenerator.TicketInput) (oc : FetchOutcome)
          (p : String),
        UiEvent.post p ∈ (SmartTicketGenerator.handleSubmit st inp oc).2 →
        (SmartTicketGenerator.handleSubmit st inp oc).2.head? = some (UiEvent.setLoading true)
          ∧ (SmartTicketGenerator.handleSubmit st inp oc).2.getLast?
              = some (UiEvent.setLoading false)) := by
  refine ⟨?_, ?_, ?_, ?_⟩
  · intro st inp oc p hmem
    by_cases h : inp.team_member_id = ""
    · simp [StandupModule.handleSubmit, h] at hmem
    · cases oc <;> simp [StandupModule.handleSubmit, h]
  · intro st inp oc p hmem
    cases oc <;> simp [RetroModule.handleSubmit]
  · intro st inp oc p hmem
    cases oc <;> simp [BlockersModule.handleSubmit]
  · intro st inp oc p hmem
    by_cases h : inp.description = ""
    · simp [SmartTicketGenerator.handleSubmit, h] at hmem
    · cases oc <;> simp [SmartTicketGenerator.handleSubmit, h]

/-- C8 witness: a concrete successful retrospective submission's trace
begins with `setLoading true` and ends with `setLoading false`. -/
theorem loadingFlagWrapsRequestWitness :
    (RetroModule.handleSubmit {}
        { sprint_id := "SPRINT-24", went_well := "w", went_poorly := "p",
          improvements := "i", team_mood := "positive", velocity_achieved := 28,
          goals_met := 85 } (.ok .null)).2.head? = some (UiEvent.setLoading true)
    ∧ (RetroModule.handleSubmit {}
        { sprint_id := "SPRINT-24", went_well := "w", went_poorly := "p",
          improvements := "i", team_mood := "positive", velocity_achieved := 28,
          goals_met := 85 } (.ok .null)).2.getLast? = some (UiEvent.setLoading false) :=
  loadingFlagWrapsRequest.2.1 {} _ (.ok .null) "/api/retrospective"
    (by simp [RetroModule.handleSubmit])

/-- C9 (confirmed): the router is a pure total table over the sidebar's
closed set of tab identifiers — each of the five backed tabs mounts its one
module, and exactly the three tabs without a backing module (`sprint`,
`insights`, `integrations`) render a static construction notice. -/
theorem renderActiveModuleTable :
    App.renderActiveModule "dashboard" = .dashboard
    ∧ App.renderActiveModule "standup" = .standupModule
    ∧ App.renderActiveModule "sprint"
        = .constructionNotice "⚡ Advanced Sprint Planner - Implementation in Progress"
    ∧ App.renderActiveModule "ticket" = .smartTicketGenerator
    ∧ App.renderActiveModule "retro" = .retroModule
    ∧ App.renderActiveModule "blockers" = .blockersModule
    ∧ App.renderActiveModule "insights"
        = .constructionNotice "🧠 AI Insights Dashboard - Implementation in Progress"
    ∧ App.renderActiveModule "integrations"
        = .constructionNotice "🔗 Enterprise Integrations - Implementation in Progress"
    ∧ (∀ tab ∈ Sidebar.menuItemIds,
        (App.renderActiveModule tab).isNotice = true
          ↔ tab ∈ ["sprint", "insights", "integrations"]) := by
  refine ⟨rfl, rfl, rfl, rfl, rfl, rfl, rfl, rfl, ?_⟩
  decide

/-- C9 witness: the `sprint` tab renders the placeholder. -/
theorem renderActiveModuleTableWitness :
    (App.renderActiveModule "sprint").isNotice = true :=
  (renderActiveModuleTable.2.2.2.2.2.2.2.2 "sprint" (by decide)).mpr (by decide)

/-- C10 (confirmed): after any edit of the Labels field, every stored label
is non-empty and carries no leading or trailing whitespace: the handler
splits on commas, trims each piece, and drops empty pieces. -/
theorem labelsInvariant :
    (∀ (value label : String),
        label ∈ SmartTicketGenerator.handleLabelsChange value →
        label ≠ "" ∧ jsTrim label = label)
    ∧ (∀ (formData : SmartTicketGenerator.TicketInput) (value : String),
        (SmartTicketGenerator.applyLabelsChange formData value).labels
          = SmartTicketGenerator.handleLabelsChange value) := by
  constructor
  · intro value label hmem
    rw [SmartTicketGenerator.handleLabelsChange] at hmem
    have hne := (List.mem_filter.mp hmem).2
    obtain ⟨x, _, hx⟩ := List.mem_map.mp (List.mem_filter.mp hmem).1
    refine ⟨by simpa using hne, ?_⟩
    rw [← hx, jsTrim_idem]
  · intro formData value
    rfl

/-- C10 witness: the invariant at a concrete Labels edit. -/
theorem labelsInvariantWitness :
    ("frontend" : String) ≠ "" ∧ jsTrim "frontend" = "frontend" :=
  labelsInvariant.1 " frontend , , backend" "frontend" (by decide)

end ScrumMaster
